import Mathlib

/-!
Verification development for the particles.js 2D particle system.

The embedding translates the two source files (`src/particles.js`, the
per-millisecond variant, and the unnamed per-second legacy variant) into Lean:

* JS floating-point numbers are modelled by the reals `ℝ`; `Math.pow` with a
  real exponent is `Real.rpow` (the `^ : ℝ → ℝ → ℝ` instance).
* The wall-clock reading (`+new Date()`) is externalized: the per-frame
  advance takes the measured elapsed time (`timeSinceLastFrame`) as an
  explicit parameter, and `Math.random()` is externalized as a stream of
  draws supplied to `spawn`.
* The canvas 2D context is modelled by recording the draw calls a frame
  issues (`DrawCall`, `ClearRect`) instead of performing them.
* JS `~~v` and `v >> 1` convert to 32-bit integers (truncation toward zero,
  wrapped into `[-2^31, 2^31)`), then `>> 1` is an arithmetic shift, i.e.
  floor division by 2.
-/

/-- The `{RED, GREEN, BLUE}` color record attached to particles and systems. -/
@[ext]
structure Rgb where
  RED : ℝ
  GREEN : ℝ
  BLUE : ℝ

/-- An `rgba(r,g,b,a)` color string, modelled by its four components. -/
structure Rgba where
  RED : ℝ
  GREEN : ℝ
  BLUE : ℝ
  ALPHA : ℝ

/-- State of one particle, mirroring the fields set by `Particle2D`. -/
@[ext]
structure Particle2D where
  x : ℝ
  y : ℝ
  velocityX : ℝ
  velocityY : ℝ
  mass : ℝ
  alpha : ℝ
  burnRate : ℝ
  sharpness : ℝ
  color : Rgb

/-- The `Particle2D(x, y)` constructor: everything but the position is zeroed. -/
def Particle2D.init (x y : ℝ) : Particle2D :=
  { x := x, y := y, velocityX := 0, velocityY := 0, mass := 0, alpha := 0,
    burnRate := 0, sharpness := 0, color := { RED := 0, GREEN := 0, BLUE := 0 } }

/-- `Particle2D.prototype.getColor`: the rgba string combining the three
channels with the current alpha. -/
def Particle2D.getColor (p : Particle2D) : Rgba :=
  { RED := p.color.RED, GREEN := p.color.GREEN, BLUE := p.color.BLUE, ALPHA := p.alpha }

/-- JS truncation toward zero of a float (the integer part of `ToInt32`). -/
noncomputable def jsTrunc (r : ℝ) : ℤ :=
  if 0 ≤ r then ⌊r⌋ else -⌊-r⌋

/-- JS `ToInt32` as used by `~~v` and `v >> 0`: truncate toward zero and wrap
into `[-2^31, 2^31)`. -/
noncomputable def jsToInt32 (r : ℝ) : ℤ :=
  (jsTrunc r + 2 ^ 31) % 2 ^ 32 - 2 ^ 31

/-- One `createRadialGradient` + two `addColorStop` + `fillRect` sequence as
issued by `Particle2D.prototype.draw`. -/
structure DrawCall where
  gradX0 : ℤ
  gradY0 : ℤ
  innerRadius : ℝ
  gradX1 : ℤ
  gradY1 : ℤ
  outerRadius : ℝ
  innerColor : Rgba
  outerColor : Rgba
  rectX : ℤ
  rectY : ℤ
  rectW : ℝ
  rectH : ℝ

/-- `Particle2D.prototype.draw(context)`: `size = mass`, `halfSize = size >> 1`,
`x = ~~x`, `y = ~~y`, `sizeSmall = halfSize * sharpness`; the gradient runs
from radius `sizeSmall` to `halfSize` around `(x + halfSize, y + halfSize)`,
with the particle's color inside and `rgba(50,0,30,0)` outside, and the
filled rectangle is `(x, y, size, size)`. -/
noncomputable def Particle2D.draw (p : Particle2D) : DrawCall :=
  let size := p.mass
  let halfSize := Int.fdiv (jsToInt32 size) 2
  let x := jsToInt32 p.x
  let y := jsToInt32 p.y
  let sizeSmall := (halfSize : ℝ) * p.sharpness
  { gradX0 := x + halfSize, gradY0 := y + halfSize, innerRadius := sizeSmall,
    gradX1 := x + halfSize, gradY1 := y + halfSize, outerRadius := (halfSize : ℝ),
    innerColor := p.getColor, outerColor := { RED := 50, GREEN := 0, BLUE := 30, ALPHA := 0 },
    rectX := x, rectY := y, rectW := size, rectH := size }

/-- The `{xMin, xMax, yMin, yMax}` dirty-region record. -/
@[ext]
structure DirtyRegion where
  xMin : ℝ
  xMax : ℝ
  yMin : ℝ
  yMax : ℝ

/-- State and configuration of `ParticleSystem`.  `canvasWidth`/`canvasHeight`
are the extent of the canvas handed to the constructor; `x`, `y` are the spawn
origin; `lastFrameTime` is dropped because the wall clock is externalized. -/
structure ParticleSystem where
  UNIVERSE_GRAVITY : ℝ
  UNIVERSE_FRICTION : ℝ
  PARTICLE_MASS_MIN : ℝ
  PARTICLE_MASS_MAX : ℝ
  PARTICLE_BURN_RATE : ℝ
  PARTICLE_SHARPNESS : ℝ
  PARTICLE_VELOCITY_X_MIN : ℝ
  PARTICLE_VELOCITY_X_MAX : ℝ
  PARTICLE_VELOCITY_Y_MIN : ℝ
  PARTICLE_VELOCITY_Y_MAX : ℝ
  SPAWN_COLOR : Rgb
  x : ℝ
  y : ℝ
  canvasWidth : ℝ
  canvasHeight : ℝ
  particles : List Particle2D
  autoClear : Bool
  dirtyRegion : DirtyRegion

/-- The per-particle physics block of `drawNextFrame` (src/particles.js lines
114-119), as the same sequence of in-place mutations:
position += velocity·mass·m, then friction decay `(1-friction)^m` on both
velocity components, then gravity `+ gravity·m` on `velocityY`, then alpha
decay `alpha * burnRate^m`. -/
noncomputable def updateParticle (sys : ParticleSystem) (m : ℝ) (p0 : Particle2D) : Particle2D :=
  let p1 := { p0 with x := p0.x + p0.velocityX * p0.mass * m }
  let p2 := { p1 with y := p1.y + p1.velocityY * p1.mass * m }
  let p3 := { p2 with velocityX := p2.velocityX * (1 - sys.UNIVERSE_FRICTION) ^ m }
  let p4 := { p3 with velocityY := p3.velocityY * (1 - sys.UNIVERSE_FRICTION) ^ m }
  let p5 := { p4 with velocityY := p4.velocityY + sys.UNIVERSE_GRAVITY * m }
  { p5 with alpha := p5.alpha * p5.burnRate ^ m }

/-- The per-particle physics block of the legacy per-second variant
(src/unnamed/part_000 lines 83-88): identical except that the position
integration divides by 1000 (velocities are in pixels per second). -/
noncomputable def updateParticleSec (sys : ParticleSystem) (m : ℝ) (p0 : Particle2D) : Particle2D :=
  let p1 := { p0 with x := p0.x + p0.velocityX * p0.mass * m / 1000 }
  let p2 := { p1 with y := p1.y + p1.velocityY * p1.mass * m / 1000 }
  let p3 := { p2 with velocityX := p2.velocityX * (1 - sys.UNIVERSE_FRICTION) ^ m }
  let p4 := { p3 with velocityY := p3.velocityY * (1 - sys.UNIVERSE_FRICTION) ^ m }
  let p5 := { p4 with velocityY := p4.velocityY + sys.UNIVERSE_GRAVITY * m }
  { p5 with alpha := p5.alpha * p5.burnRate ^ m }

/-- Rescale a particle's velocity components by `c` (relating the per-second
and per-millisecond unit conventions). -/
def scaleVel (c : ℝ) (p : Particle2D) : Particle2D :=
  { p with velocityX := c * p.velocityX, velocityY := c * p.velocityY }

/-- The frame delay multiple: `m = (timeSinceLastFrame === 0) ? 1 :
timeSinceLastFrame / (1000/60)` (src/particles.js line 90). -/
noncomputable def frameMult (timeSinceLastFrame : ℝ) : ℝ :=
  if timeSinceLastFrame = 0 then 1 else timeSinceLastFrame / (1000 / 60)

/-- The physics step of `drawNextFrame` driven by the measured elapsed time. -/
noncomputable def advancePhysics (sys : ParticleSystem) (t : ℝ) (p : Particle2D) : Particle2D :=
  updateParticle sys (frameMult t) p

/-- The retirement test of `drawNextFrame` (src/particles.js line 125):
`p.alpha <= 0.1 || p.y < 0 || p.x < 0 || p.y > canvas.height || p.x > canvas.width`. -/
def retireCond (w h : ℝ) (p : Particle2D) : Prop :=
  p.alpha ≤ 0.1 ∨ p.y < 0 ∨ p.x < 0 ∨ p.y > h ∨ p.x > w

noncomputable instance (w h : ℝ) (p : Particle2D) : Decidable (retireCond w h p) := by
  unfold retireCond
  infer_instance

/-- The dirty-region expansion of `drawNextFrame` (src/particles.js lines
130-133): push each bound out to include the particle's position. -/
noncomputable def updateDirty (d : DirtyRegion) (p : Particle2D) : DirtyRegion :=
  { xMin := if p.x < d.xMin then p.x else d.xMin,
    xMax := if p.x > d.xMax then p.x else d.xMax,
    yMin := if p.y < d.yMin then p.y else d.yMin,
    yMax := if p.y > d.yMax then p.y else d.yMax }

/-- The guarded dirty-region update: only performed when `autoClear` is set
(src/particles.js line 128). -/
noncomputable def dirtyStep (sys : ParticleSystem) (d : DirtyRegion) (p : Particle2D) : DirtyRegion :=
  if sys.autoClear then updateDirty d p else d

/-- The spec-side in-order filter of a particle list by the non-retirement
predicate. -/
noncomputable def keepLive (w h : ℝ) : List Particle2D → List Particle2D
  | [] => []
  | p :: ps => if retireCond w h p then keepLive w h ps else p :: keepLive w h ps

/-- The `for (var i = 0; ...)` loop of `drawNextFrame` (src/particles.js lines
109-136): update the particle in place, draw it, then either splice it out
(decrementing `i`) or expand the dirty region, and continue. -/
noncomputable def frameLoop (sys : ParticleSystem) (m : ℝ) (ps : List Particle2D) (i : ℕ)
    (d : DirtyRegion) (calls : List DrawCall) :
    List Particle2D × DirtyRegion × List DrawCall :=
  if hi : i < ps.length then
    let p := updateParticle sys m (ps.get ⟨i, hi⟩)
    let drawn := calls ++ [p.draw]
    if retireCond sys.canvasWidth sys.canvasHeight p then
      frameLoop sys m ((ps.set i p).eraseIdx i) i d drawn
    else
      frameLoop sys m (ps.set i p) (i + 1) (dirtyStep sys d p) drawn
  else (ps, d, calls)
termination_by ps.length - i
decreasing_by
  · have h1 : ((ps.set i (updateParticle sys m (ps.get ⟨i, hi⟩))).eraseIdx i).length
        = ps.length - 1 := by
      rw [List.length_eraseIdx] ; simp [hi]
    omega
  · simp
    omega

/-- A `ctx.clearRect(x, y, w, h)` call. -/
structure ClearRect where
  x : ℝ
  y : ℝ
  w : ℝ
  h : ℝ

/-- Rectangle handed to `ctx.clearRect` when `autoClear` is set
(src/particles.js lines 94-100): the previous dirty region inflated by
`margin = PARTICLE_MASS_MAX * 2`. -/
noncomputable def clearRegionRect (sys : ParticleSystem) : ClearRect :=
  let margin := sys.PARTICLE_MASS_MAX * 2
  { x := sys.dirtyRegion.xMin - margin,
    y := sys.dirtyRegion.yMin - margin,
    w := sys.dirtyRegion.xMax - sys.dirtyRegion.xMin + margin * 2,
    h := sys.dirtyRegion.yMax - sys.dirtyRegion.yMin + margin * 2 }

/-- The reset dirty region (src/particles.js lines 102-105): an inverted box
with the minima at the canvas extent and the maxima at zero. -/
def resetDirty (sys : ParticleSystem) : DirtyRegion :=
  { xMin := sys.canvasWidth, xMax := 0, yMin := sys.canvasHeight, yMax := 0 }

/-- Everything one `drawNextFrame()` call produces: the new system state, the
`clearRect` call (when `autoClear` is set) and the particle draw calls. -/
structure FrameResult where
  sys : ParticleSystem
  cleared : Option ClearRect
  calls : List DrawCall

/-- `ParticleSystem.prototype.drawNextFrame` with the wall-clock delta
externalized: compute `m`, clear and reset the dirty region when `autoClear`
is set, then run the update/draw/cull loop over the live particles. -/
noncomputable def drawNextFrame (sys : ParticleSystem) (timeSinceLastFrame : ℝ) : FrameResult :=
  let m := frameMult timeSinceLastFrame
  let cleared := if sys.autoClear then some (clearRegionRect sys) else none
  let d0 := if sys.autoClear then resetDirty sys else sys.dirtyRegion
  let r := frameLoop sys m sys.particles 0 d0 []
  { sys := { sys with particles := r.1, dirtyRegion := r.2.1 },
    cleared := cleared, calls := r.2.2 }

/-- One particle built inside the `spawn` loop (src/particles.js lines
148-158); `r` packs the four `Math.random()` draws (velocityX, velocityY,
mass, alpha) in call order. -/
noncomputable def spawnParticle (sys : ParticleSystem) (r : ℝ × ℝ × ℝ × ℝ) : Particle2D :=
  let particle := Particle2D.init sys.x sys.y
  { particle with
      velocityX := r.1 * (sys.PARTICLE_VELOCITY_X_MAX - sys.PARTICLE_VELOCITY_X_MIN)
        + sys.PARTICLE_VELOCITY_X_MIN,
      velocityY := r.2.1 * (sys.PARTICLE_VELOCITY_Y_MAX - sys.PARTICLE_VELOCITY_Y_MIN)
        + sys.PARTICLE_VELOCITY_Y_MIN,
      mass := r.2.2.1 * (sys.PARTICLE_MASS_MAX - sys.PARTICLE_MASS_MIN)
        + sys.PARTICLE_MASS_MIN,
      alpha := r.2.2.2,
      burnRate := sys.PARTICLE_BURN_RATE,
      sharpness := sys.PARTICLE_SHARPNESS,
      color := sys.SPAWN_COLOR }

/-- The `for (n; n > 0; n--)` push loop of `spawn` (src/particles.js lines
146-161), with the random stream indexed by `k`. -/
noncomputable def spawnLoop (sys : ParticleSystem) (rnd : ℕ → ℝ × ℝ × ℝ × ℝ) (n : ℤ) (k : ℕ)
    (acc : List Particle2D) : List Particle2D :=
  if _hn : n > 0 then
    spawnLoop sys rnd (n - 1) (k + 1) (acc ++ [spawnParticle sys (rnd k)])
  else acc
termination_by n.toNat
decreasing_by omega

/-- `ParticleSystem.prototype.spawn(n)`: append the freshly spawned particles
to the live set. -/
noncomputable def ParticleSystem.spawn (sys : ParticleSystem) (n : ℤ)
    (rnd : ℕ → ℝ × ℝ × ℝ × ℝ) : ParticleSystem :=
  { sys with particles := spawnLoop sys rnd n 0 sys.particles }

/-- Spec-side predicate: the position lies in the closed surface rectangle
`[0, w] × [0, h]` (the inclusive reading of "outside" from the spec). -/
def insideSurface (w h : ℝ) (p : Particle2D) : Prop :=
  p.x ∈ Set.Icc (0 : ℝ) w ∧ p.y ∈ Set.Icc (0 : ℝ) h

/-- The `ParticleSystem(canvas)` constructor of src/particles.js lines 41-78:
the default configuration, the spawn origin `(width >> 1, height * 0.8)`, an
empty live set, `autoClear` on and a zero dirty region. -/
noncomputable def mkSystem (canvasWidth canvasHeight : ℝ) : ParticleSystem :=
  { UNIVERSE_GRAVITY := 0.0005, UNIVERSE_FRICTION := 0.02,
    PARTICLE_MASS_MIN := 30, PARTICLE_MASS_MAX := 60,
    PARTICLE_BURN_RATE := 0.97, PARTICLE_SHARPNESS := 0.2,
    PARTICLE_VELOCITY_X_MIN := -0.055, PARTICLE_VELOCITY_X_MAX := 0.055,
    PARTICLE_VELOCITY_Y_MIN := -0.18, PARTICLE_VELOCITY_Y_MAX := 0,
    SPAWN_COLOR := { RED := 255, GREEN := 155, BLUE := 0 },
    x := ((Int.fdiv (jsToInt32 canvasWidth) 2 : ℤ) : ℝ), y := canvasHeight * 0.8,
    canvasWidth := canvasWidth, canvasHeight := canvasHeight,
    particles := [], autoClear := true,
    dirtyRegion := { xMin := 0, xMax := 0, yMin := 0, yMax := 0 } }

/-- Sample system for the interval-splitting scenario: unit gravity, no
friction, on a 200×200 canvas. -/
noncomputable def splitSys : ParticleSystem :=
  { mkSystem 200 200 with UNIVERSE_GRAVITY := 1, UNIVERSE_FRICTION := 0 }

/-- Sample particle for the interval-splitting scenario: at the origin and at
rest, with unit mass and a burn rate of 1. -/
noncomputable def splitP : Particle2D :=
  { Particle2D.init 0 0 with mass := 1, alpha := 1, burnRate := 1 }

/-- Sample particle at full opacity with burn rate 1/2. -/
noncomputable def decayP : Particle2D :=
  { Particle2D.init 0 0 with alpha := 1, burnRate := 1/2 }

/-- Sample live particle at (50, 60): at rest, fully opaque, burn rate 1. -/
noncomputable def boundsP : Particle2D :=
  { Particle2D.init 50 60 with mass := 10, alpha := 1, burnRate := 1 }

/-- Sample force-free system whose only live particle is `boundsP`. -/
noncomputable def boundsSys : ParticleSystem :=
  { mkSystem 200 200 with
      UNIVERSE_GRAVITY := 0, UNIVERSE_FRICTION := 0, particles := [boundsP] }

/-- Sample nearly-faded particle (alpha 0.05, below the 0.1 threshold). -/
noncomputable def fadedP : Particle2D :=
  { Particle2D.init 50 60 with mass := 10, alpha := 0.05, burnRate := 1 }

/-- Sample force-free system whose only live particle is `fadedP`. -/
noncomputable def fadedSys : ParticleSystem :=
  { mkSystem 200 200 with
      UNIVERSE_GRAVITY := 0, UNIVERSE_FRICTION := 0, particles := [fadedP] }

/-- A constant stream of `Math.random()` draws. -/
noncomputable def rndStream : ℕ → ℝ × ℝ × ℝ × ℝ := fun _ => (0, 0, 0, 1)

/-- Sample particle with an odd (non-even-integer) mass of 31. -/
noncomputable def oddMassP : Particle2D :=
  { Particle2D.init 10 20 with mass := 31, sharpness := 0.5, alpha := 1 }

/-- C5: within one per-frame advance the particle state is updated in source
order — position is incremented by `velocity * mass * m` using the pre-update
velocity, then friction multiplies both velocity components by
`(1-friction)^m`, then `gravity * m` is added to `velocityY`, then alpha is
multiplied by `burnRate^m`; the friction and gravity applied this tick only
affect the next tick's displacement. -/
theorem update_order_closed_form (sys : ParticleSystem) (m : ℝ) (p : Particle2D) :
    (updateParticle sys m p).x = p.x + p.velocityX * p.mass * m ∧
    (updateParticle sys m p).y = p.y + p.velocityY * p.mass * m ∧
    (updateParticle sys m p).velocityX = p.velocityX * (1 - sys.UNIVERSE_FRICTION) ^ m ∧
    (updateParticle sys m p).velocityY
      = p.velocityY * (1 - sys.UNIVERSE_FRICTION) ^ m + sys.UNIVERSE_GRAVITY * m ∧
    (updateParticle sys m p).alpha = p.alpha * p.burnRate ^ m :=
  ⟨rfl, rfl, rfl, rfl, rfl⟩

/-- C8: the per-second legacy variant computes the same per-particle update as
the per-millisecond one — applying it to velocities scaled by 1000 with
gravity scaled by 1000 yields identical positions and alphas and velocities
scaled by 1000. -/
theorem per_second_variant_matches (sys : ParticleSystem) (m : ℝ) (p : Particle2D) :
    updateParticleSec { sys with UNIVERSE_GRAVITY := 1000 * sys.UNIVERSE_GRAVITY } m
        (scaleVel 1000 p)
      = scaleVel 1000 (updateParticle sys m p) := by
  ext <;> simp [updateParticleSec, updateParticle, scaleVel] <;> ring

/-- C1 counterexample: with unit gravity, no friction and a unit-mass particle
at rest, advancing twice by one nominal frame (1000/60 ms each) puts the
particle at `y = 1`, while a single advance by the summed interval leaves
`y = 0`: the split and unsplit runs do not yield the same position. -/
theorem frame_split_counterexample :
    (advancePhysics splitSys (1000 / 60) (advancePhysics splitSys (1000 / 60) splitP)).y
      ≠ (advancePhysics splitSys (1000 / 60 + 1000 / 60) splitP).y := by
  have h1 : frameMult (1000 / 60 : ℝ) = 1 := by
    unfold frameMult
    rw [if_neg (by norm_num)]
    norm_num
  have h2 : frameMult (1000 / 60 + 1000 / 60 : ℝ) = 2 := by
    unfold frameMult
    rw [if_neg (by norm_num)]
    norm_num
  unfold advancePhysics
  rw [h1, h2]
  simp [updateParticle, splitSys, splitP, mkSystem, Particle2D.init, Real.one_rpow]

/-- C1 amended: splitting an elapsed interval `T` into two positive parts `a`
and `b` preserves the final alpha exactly (for a positive burn rate); the
position and velocity components are not preserved in general, as the
counterexample shows. -/
theorem frame_split_alpha_invariant (sys : ParticleSystem) (p : Particle2D) (a b : ℝ)
    (ha : 0 < a) (hb : 0 < b) (hbr : 0 < p.burnRate) :
    (advancePhysics sys b (advancePhysics sys a p)).alpha
      = (advancePhysics sys (a + b) p).alpha := by
  have hsum : frameMult (a + b) = frameMult a + frameMult b := by
    have hab : a + b ≠ 0 := by positivity
    unfold frameMult
    rw [if_neg hab, if_neg ha.ne', if_neg hb.ne', div_add_div_same]
  have e1 : (advancePhysics sys b (advancePhysics sys a p)).alpha
      = p.alpha * p.burnRate ^ frameMult a * p.burnRate ^ frameMult b := rfl
  have e2 : (advancePhysics sys (a + b) p).alpha
      = p.alpha * p.burnRate ^ frameMult (a + b) := rfl
  rw [e1, e2, hsum, Real.rpow_add hbr, mul_assoc]

/-- Witness for the amended C1 at a concrete split. -/
theorem frame_split_alpha_invariant_witness :
    (0 < (1000 / 60 : ℝ) ∧ 0 < splitP.burnRate) ∧
    (advancePhysics splitSys (1000 / 60) (advancePhysics splitSys (1000 / 60) splitP)).alpha
      = (advancePhysics splitSys (1000 / 60 + 1000 / 60) splitP).alpha :=
  ⟨⟨by norm_num, by norm_num [splitP, Particle2D.init]⟩,
   frame_split_alpha_invariant splitSys splitP (1000 / 60) (1000 / 60)
     (by norm_num) (by norm_num) (by norm_num [splitP, Particle2D.init])⟩

/-- C4: for a particle with burn rate in (0,1], nonnegative alpha (the data
model keeps alpha in [0,1]) and a positive elapsed time, the per-frame
advance never increases alpha. -/
theorem alpha_monotone_decay (sys : ParticleSystem) (t : ℝ) (p : Particle2D)
    (hbr : 0 < p.burnRate) (hbr1 : p.burnRate ≤ 1) (ha : 0 ≤ p.alpha) (ht : 0 < t) :
    (advancePhysics sys t p).alpha ≤ p.alpha := by
  have hm : 0 ≤ frameMult t := by
    unfold frameMult
    rw [if_neg ht.ne']
    positivity
  have e : (advancePhysics sys t p).alpha = p.alpha * p.burnRate ^ frameMult t := rfl
  rw [e]
  exact mul_le_of_le_one_right ha (Real.rpow_le_one hbr.le hbr1 hm)

/-- Witness for C4 at a concrete particle and elapsed time. -/
theorem alpha_monotone_decay_witness :
    (0 < decayP.burnRate ∧ decayP.burnRate ≤ 1 ∧ 0 ≤ decayP.alpha ∧ 0 < (100 : ℝ)) ∧
    (advancePhysics (mkSystem 200 200) 100 decayP).alpha ≤ decayP.alpha :=
  ⟨⟨by norm_num [decayP, Particle2D.init], by norm_num [decayP, Particle2D.init],
    by norm_num [decayP, Particle2D.init], by norm_num⟩,
   alpha_monotone_decay (mkSystem 200 200) 100 decayP
     (by norm_num [decayP, Particle2D.init]) (by norm_num [decayP, Particle2D.init])
     (by norm_num [decayP, Particle2D.init]) (by norm_num)⟩

/-- Reading the element at the seam of an append. -/
lemma get_append_mid {α : Type} (done : List α) (a : α) (r : List α)
    (h : done.length < (done ++ a :: r).length) :
    (done ++ a :: r).get ⟨done.length, h⟩ = a := by
  induction done with
  | nil => rfl
  | cons x xs ih => exact ih (by simp)

/-- Setting the element at the seam of an append. -/
lemma set_append_mid {α : Type} (done : List α) (a b : α) (r : List α) :
    (done ++ a :: r).set done.length b = done ++ b :: r := by
  induction done with
  | nil => rfl
  | cons x xs ih => simp [ih]

/-- Erasing the element at the seam of an append. -/
lemma eraseIdx_append_mid {α : Type} (done : List α) (a : α) (r : List α) :
    (done ++ a :: r).eraseIdx done.length = done ++ r := by
  induction done with
  | nil => rfl
  | cons x xs ih => simpa using ih

/-- Unrolling `frameLoop` from the seam: the processed prefix is kept as-is,
the remaining particles are updated, drawn in order, filtered by the
retirement test, and the kept ones are folded into the dirty region. -/
lemma frameLoop_spec (sys : ParticleSystem) (m : ℝ) (rest : List Particle2D) :
    ∀ (done : List Particle2D) (d : DirtyRegion) (calls : List DrawCall),
      frameLoop sys m (done ++ rest) done.length d calls =
        (done ++ keepLive sys.canvasWidth sys.canvasHeight (rest.map (updateParticle sys m)),
         List.foldl (dirtyStep sys) d
           (keepLive sys.canvasWidth sys.canvasHeight (rest.map (updateParticle sys m))),
         calls ++ (rest.map (updateParticle sys m)).map Particle2D.draw) := by
  induction rest with
  | nil =>
    intro done d calls
    rw [frameLoop]
    simp [keepLive]
  | cons r rs ih =>
    intro done d calls
    have hlt : done.length < (done ++ r :: rs).length := by simp
    rw [frameLoop]
    rw [dif_pos hlt]
    rw [get_append_mid done r rs hlt]
    dsimp only
    by_cases hret : retireCond sys.canvasWidth sys.canvasHeight (updateParticle sys m r)
    · rw [if_pos hret, set_append_mid done r _ rs, eraseIdx_append_mid done _ rs]
      rw [ih done d (calls ++ [(updateParticle sys m r).draw])]
      simp [keepLive, hret]
    · rw [if_neg hret, set_append_mid done r _ rs]
      have h2 := ih (done ++ [updateParticle sys m r])
        (dirtyStep sys d (updateParticle sys m r))
        (calls ++ [(updateParticle sys m r).draw])
      simp only [List.append_assoc, List.singleton_append, List.length_append,
        List.length_singleton, List.length_cons, List.length_nil, Nat.zero_add] at h2
      rw [h2]
      simp [keepLive, hret]

/-- The live set after `drawNextFrame` is the in-order filter of the updated
particles by the non-retirement test. -/
lemma drawNextFrame_particles (sys : ParticleSystem) (t : ℝ) :
    (drawNextFrame sys t).sys.particles =
      keepLive sys.canvasWidth sys.canvasHeight
        (sys.particles.map (updateParticle sys (frameMult t))) := by
  have h := frameLoop_spec sys (frameMult t) sys.particles []
    (if sys.autoClear then resetDirty sys else sys.dirtyRegion) []
  simp only [List.nil_append, List.length_nil] at h
  simp only [drawNextFrame, h]

/-- The dirty region after `drawNextFrame` is the fold of the (guarded)
expansion step over exactly the kept particles, starting from the reset
region when `autoClear` is set. -/
lemma drawNextFrame_dirty (sys : ParticleSystem) (t : ℝ) :
    (drawNextFrame sys t).sys.dirtyRegion =
      List.foldl (dirtyStep sys) (if sys.autoClear then resetDirty sys else sys.dirtyRegion)
        (keepLive sys.canvasWidth sys.canvasHeight
          (sys.particles.map (updateParticle sys (frameMult t)))) := by
  have h := frameLoop_spec sys (frameMult t) sys.particles []
    (if sys.autoClear then resetDirty sys else sys.dirtyRegion) []
  simp only [List.nil_append, List.length_nil] at h
  simp only [drawNextFrame, h]

/-- `drawNextFrame` issues exactly one draw call per starting particle, in
order, for the updated state of that particle. -/
lemma drawNextFrame_calls (sys : ParticleSystem) (t : ℝ) :
    (drawNextFrame sys t).calls =
      (sys.particles.map (updateParticle sys (frameMult t))).map Particle2D.draw := by
  have h := frameLoop_spec sys (frameMult t) sys.particles []
    (if sys.autoClear then resetDirty sys else sys.dirtyRegion) []
  simp only [List.nil_append, List.length_nil] at h
  simp only [drawNextFrame, h]

/-- Membership in the in-order filter. -/
lemma mem_keepLive {w h : ℝ} {q : Particle2D} : ∀ {l : List Particle2D},
    q ∈ keepLive w h l ↔ q ∈ l ∧ ¬ retireCond w h q := by
  intro l
  induction l with
  | nil => simp [keepLive]
  | cons p ps ih =>
    by_cases hp : retireCond w h p
    · rw [keepLive, if_pos hp, ih]
      constructor
      · rintro ⟨h1, h2⟩
        exact ⟨List.mem_cons_of_mem _ h1, h2⟩
      · rintro ⟨h1, h2⟩
        rcases List.mem_cons.mp h1 with rfl | h3
        · exact absurd hp h2
        · exact ⟨h3, h2⟩
    · rw [keepLive, if_neg hp]
      constructor
      · intro h1
        rcases List.mem_cons.mp h1 with rfl | h3
        · exact ⟨List.mem_cons_self _ _, hp⟩
        · obtain ⟨h4, h5⟩ := ih.mp h3
          exact ⟨List.mem_cons_of_mem _ h4, h5⟩
      · rintro ⟨h1, h2⟩
        rcases List.mem_cons.mp h1 with rfl | h3
        · exact List.mem_cons_self _ _
        · exact List.mem_cons_of_mem _ (ih.mpr ⟨h3, h2⟩)

/-- Expanding by one particle can only lower `xMin`. -/
lemma updateDirty_xMin_le (d : DirtyRegion) (p : Particle2D) :
    (updateDirty d p).xMin ≤ d.xMin := by
  by_cases hc : p.x < d.xMin
  · simp only [updateDirty, if_pos hc]; exact le_of_lt hc
  · simp only [updateDirty, if_neg hc]; exact le_refl _

/-- Expanding by one particle can only raise `xMax`. -/
lemma updateDirty_le_xMax (d : DirtyRegion) (p : Particle2D) :
    d.xMax ≤ (updateDirty d p).xMax := by
  by_cases hc : p.x > d.xMax
  · simp only [updateDirty, if_pos hc]; exact le_of_lt hc
  · simp only [updateDirty, if_neg hc]; exact le_refl _

/-- Expanding by one particle can only lower `yMin`. -/
lemma updateDirty_yMin_le (d : DirtyRegion) (p : Particle2D) :
    (updateDirty d p).yMin ≤ d.yMin := by
  by_cases hc : p.y < d.yMin
  · simp only [updateDirty, if_pos hc]; exact le_of_lt hc
  · simp only [updateDirty, if_neg hc]; exact le_refl _

/-- Expanding by one particle can only raise `yMax`. -/
lemma updateDirty_le_yMax (d : DirtyRegion) (p : Particle2D) :
    d.yMax ≤ (updateDirty d p).yMax := by
  by_cases hc : p.y > d.yMax
  · simp only [updateDirty, if_pos hc]; exact le_of_lt hc
  · simp only [updateDirty, if_neg hc]; exact le_refl _

/-- After expanding by `p`, the region covers `p.x` from below. -/
lemma updateDirty_xMin_le_x (d : DirtyRegion) (p : Particle2D) :
    (updateDirty d p).xMin ≤ p.x := by
  by_cases hc : p.x < d.xMin
  · simp only [updateDirty, if_pos hc]; exact le_refl _
  · simp only [updateDirty, if_neg hc]; exact le_of_not_lt hc

/-- After expanding by `p`, the region covers `p.x` from above. -/
lemma updateDirty_x_le_xMax (d : DirtyRegion) (p : Particle2D) :
    p.x ≤ (updateDirty d p).xMax := by
  by_cases hc : p.x > d.xMax
  · simp only [updateDirty, if_pos hc]; exact le_refl _
  · simp only [updateDirty, if_neg hc]; exact le_of_not_lt hc

/-- After expanding by `p`, the region covers `p.y` from below. -/
lemma updateDirty_yMin_le_y (d : DirtyRegion) (p : Particle2D) :
    (updateDirty d p).yMin ≤ p.y := by
  by_cases hc : p.y < d.yMin
  · simp only [updateDirty, if_pos hc]; exact le_refl _
  · simp only [updateDirty, if_neg hc]; exact le_of_not_lt hc

/-- After expanding by `p`, the region covers `p.y` from above. -/
lemma updateDirty_y_le_yMax (d : DirtyRegion) (p : Particle2D) :
    p.y ≤ (updateDirty d p).yMax := by
  by_cases hc : p.y > d.yMax
  · simp only [updateDirty, if_pos hc]; exact le_refl _
  · simp only [updateDirty, if_neg hc]; exact le_of_not_lt hc

/-- Folding expansions into a dirty region only pushes its bounds outward. -/
lemma foldl_updateDirty_expand (l : List Particle2D) :
    ∀ d : DirtyRegion,
      (List.foldl updateDirty d l).xMin ≤ d.xMin ∧ d.xMax ≤ (List.foldl updateDirty d l).xMax ∧
      (List.foldl updateDirty d l).yMin ≤ d.yMin ∧ d.yMax ≤ (List.foldl updateDirty d l).yMax := by
  induction l with
  | nil => intro d; exact ⟨le_refl _, le_refl _, le_refl _, le_refl _⟩
  | cons p ps ih =>
    intro d
    obtain ⟨h1, h2, h3, h4⟩ := ih (updateDirty d p)
    exact ⟨h1.trans (updateDirty_xMin_le d p), (updateDirty_le_xMax d p).trans h2,
      h3.trans (updateDirty_yMin_le d p), (updateDirty_le_yMax d p).trans h4⟩

/-- Every particle folded into a dirty region ends up inside its bounds. -/
lemma foldl_updateDirty_bounds (l : List Particle2D) :
    ∀ (d : DirtyRegion) (q : Particle2D), q ∈ l →
      (List.foldl updateDirty d l).xMin ≤ q.x ∧ q.x ≤ (List.foldl updateDirty d l).xMax ∧
      (List.foldl updateDirty d l).yMin ≤ q.y ∧ q.y ≤ (List.foldl updateDirty d l).yMax := by
  induction l with
  | nil => intro d q hq; exact absurd hq (List.not_mem_nil q)
  | cons p ps ih =>
    intro d q hq
    rcases List.mem_cons.mp hq with rfl | hq'
    · obtain ⟨h1, h2, h3, h4⟩ := foldl_updateDirty_expand ps (updateDirty d q)
      exact ⟨h1.trans (updateDirty_xMin_le_x d q), (updateDirty_x_le_xMax d q).trans h2,
        h3.trans (updateDirty_yMin_le_y d q), (updateDirty_y_le_yMax d q).trans h4⟩
    · exact ih (updateDirty d p) q hq'

/-- On the very first call (or a zero delta) the frame multiple is 1. -/
lemma frameMult_zero : frameMult 0 = 1 := by
  simp [frameMult]

/-- C2: a particle processed by `drawNextFrame` is kept in the live set if and
only if, after its state update, its alpha exceeds 0.1 and its position lies
in the closed rectangle `[0, width] × [0, height]` — equivalently, it is
removed exactly when `alpha ≤ 0.1` or the position is strictly outside; a
particle exactly on the surface edge remains live. -/
theorem retirement_iff_alpha_or_outside (sys : ParticleSystem) (t : ℝ) (q : Particle2D) :
    q ∈ (drawNextFrame sys t).sys.particles ↔
      q ∈ sys.particles.map (updateParticle sys (frameMult t)) ∧
        ¬ (q.alpha ≤ 0.1 ∨ ¬ insideSurface sys.canvasWidth sys.canvasHeight q) := by
  rw [drawNextFrame_particles, mem_keepLive]
  have hiff : retireCond sys.canvasWidth sys.canvasHeight q ↔
      (q.alpha ≤ 0.1 ∨ ¬ insideSurface sys.canvasWidth sys.canvasHeight q) := by
    unfold retireCond insideSurface
    simp only [Set.mem_Icc, not_and_or, not_le]
    tauto
  rw [hiff]

/-- C9: every particle live at the start of a `drawNextFrame` call is updated
and drawn exactly once, in order — the splice-and-decrement removal skips
nobody — and the live set at the end is the in-order filter of the updated
particles by the non-retirement predicate. -/
theorem frame_updates_all_and_filters (sys : ParticleSystem) (t : ℝ) :
    (drawNextFrame sys t).sys.particles =
      keepLive sys.canvasWidth sys.canvasHeight
        (sys.particles.map (updateParticle sys (frameMult t))) ∧
    (drawNextFrame sys t).calls =
      (sys.particles.map (updateParticle sys (frameMult t))).map Particle2D.draw :=
  ⟨drawNextFrame_particles sys t, drawNextFrame_calls sys t⟩

/-- C6: with dirty-region tracking enabled, after a `drawNextFrame` call the
tracked box inflated by the margin `PARTICLE_MASS_MAX * 2` bounds the
positions of all particles still live at the end of the call. -/
theorem dirty_region_bounds_live (sys : ParticleSystem) (t : ℝ)
    (hac : sys.autoClear = true) (hm : 0 ≤ sys.PARTICLE_MASS_MAX) :
    ∀ q ∈ (drawNextFrame sys t).sys.particles,
      (drawNextFrame sys t).sys.dirtyRegion.xMin - sys.PARTICLE_MASS_MAX * 2 ≤ q.x ∧
      q.x ≤ (drawNextFrame sys t).sys.dirtyRegion.xMax + sys.PARTICLE_MASS_MAX * 2 ∧
      (drawNextFrame sys t).sys.dirtyRegion.yMin - sys.PARTICLE_MASS_MAX * 2 ≤ q.y ∧
      q.y ≤ (drawNextFrame sys t).sys.dirtyRegion.yMax + sys.PARTICLE_MASS_MAX * 2 := by
  intro q hq
  rw [drawNextFrame_particles] at hq
  rw [drawNextFrame_dirty]
  have hds : dirtyStep sys = updateDirty := by
    funext d p
    simp [dirtyStep, hac]
  rw [hds, if_pos hac]
  obtain ⟨h1, h2, h3, h4⟩ := foldl_updateDirty_bounds _ (resetDirty sys) q hq
  exact ⟨by linarith, by linarith, by linarith, by linarith⟩

/-- The sample particle `boundsP` is a fixed point of the force-free update. -/
lemma updateParticle_boundsP : updateParticle boundsSys 1 boundsP = boundsP := by
  ext <;>
    simp [updateParticle, boundsSys, boundsP, mkSystem, Particle2D.init, Real.one_rpow]

/-- Running one frame of `boundsSys` keeps its single particle. -/
lemma boundsSys_frame : (drawNextFrame boundsSys 0).sys.particles = [boundsP] := by
  rw [drawNextFrame_particles, frameMult_zero]
  have e : boundsSys.particles = [boundsP] := rfl
  rw [e, List.map_cons, List.map_nil, updateParticle_boundsP]
  rw [keepLive, if_neg]
  · rw [keepLive]
  · norm_num [retireCond, boundsSys, boundsP, mkSystem, Particle2D.init]

/-- Witness for C6 on a concrete one-particle run. -/
theorem dirty_region_bounds_live_witness :
    (boundsSys.autoClear = true ∧ 0 ≤ boundsSys.PARTICLE_MASS_MAX ∧
      boundsP ∈ (drawNextFrame boundsSys 0).sys.particles) ∧
    ((drawNextFrame boundsSys 0).sys.dirtyRegion.xMin
        - boundsSys.PARTICLE_MASS_MAX * 2 ≤ boundsP.x ∧
      boundsP.x ≤ (drawNextFrame boundsSys 0).sys.dirtyRegion.xMax
        + boundsSys.PARTICLE_MASS_MAX * 2 ∧
      (drawNextFrame boundsSys 0).sys.dirtyRegion.yMin
        - boundsSys.PARTICLE_MASS_MAX * 2 ≤ boundsP.y ∧
      boundsP.y ≤ (drawNextFrame boundsSys 0).sys.dirtyRegion.yMax
        + boundsSys.PARTICLE_MASS_MAX * 2) := by
  have hmem : boundsP ∈ (drawNextFrame boundsSys 0).sys.particles := by
    rw [boundsSys_frame]
    exact List.mem_singleton.mpr rfl
  have hmass : (0 : ℝ) ≤ boundsSys.PARTICLE_MASS_MAX := by
    norm_num [boundsSys, mkSystem]
  exact ⟨⟨rfl, hmass, hmem⟩, dirty_region_bounds_live boundsSys 0 rfl hmass boundsP hmem⟩

/-- C10: a particle that meets the retirement condition during a frame is
still drawn exactly once in that same call (the draw precedes the retirement
test), it is absent from the live set afterwards, and the final dirty region
is the fold over only the non-retired particles — the retired particle's
final position is never added. -/
theorem retired_particle_drawn_once (sys : ParticleSystem) (t : ℝ) (p : Particle2D)
    (hp : p ∈ sys.particles)
    (hr : retireCond sys.canvasWidth sys.canvasHeight (updateParticle sys (frameMult t) p)) :
    Particle2D.draw (updateParticle sys (frameMult t) p) ∈ (drawNextFrame sys t).calls ∧
    (drawNextFrame sys t).calls =
      (sys.particles.map (updateParticle sys (frameMult t))).map Particle2D.draw ∧
    updateParticle sys (frameMult t) p ∉ (drawNextFrame sys t).sys.particles ∧
    (drawNextFrame sys t).sys.dirtyRegion =
      List.foldl (dirtyStep sys)
        (if sys.autoClear then resetDirty sys else sys.dirtyRegion)
        (keepLive sys.canvasWidth sys.canvasHeight
          (sys.particles.map (updateParticle sys (frameMult t)))) := by
  refine ⟨?_, drawNextFrame_calls sys t, ?_, drawNextFrame_dirty sys t⟩
  · rw [drawNextFrame_calls]
    exact List.mem_map_of_mem _ (List.mem_map_of_mem _ hp)
  · rw [drawNextFrame_particles]
    intro hmem
    exact (mem_keepLive.mp hmem).2 hr

/-- The sample particle `fadedP` is a fixed point of the force-free update. -/
lemma updateParticle_fadedP : updateParticle fadedSys 1 fadedP = fadedP := by
  ext <;>
    simp [updateParticle, fadedSys, fadedP, mkSystem, Particle2D.init, Real.one_rpow]

/-- Witness for C10 on a concrete faded particle. -/
theorem retired_particle_drawn_once_witness :
    (fadedP ∈ fadedSys.particles ∧
      retireCond fadedSys.canvasWidth fadedSys.canvasHeight
        (updateParticle fadedSys (frameMult 0) fadedP)) ∧
    (Particle2D.draw (updateParticle fadedSys (frameMult 0) fadedP)
        ∈ (drawNextFrame fadedSys 0).calls ∧
      (drawNextFrame fadedSys 0).calls =
        (fadedSys.particles.map (updateParticle fadedSys (frameMult 0))).map Particle2D.draw ∧
      updateParticle fadedSys (frameMult 0) fadedP ∉ (drawNextFrame fadedSys 0).sys.particles ∧
      (drawNextFrame fadedSys 0).sys.dirtyRegion =
        List.foldl (dirtyStep fadedSys)
          (if fadedSys.autoClear then resetDirty fadedSys else fadedSys.dirtyRegion)
          (keepLive fadedSys.canvasWidth fadedSys.canvasHeight
            (fadedSys.particles.map (updateParticle fadedSys (frameMult 0))))) := by
  have hmem : fadedP ∈ fadedSys.particles := List.mem_singleton.mpr rfl
  have hret : retireCond fadedSys.canvasWidth fadedSys.canvasHeight
      (updateParticle fadedSys (frameMult 0) fadedP) := by
    rw [frameMult_zero, updateParticle_fadedP]
    norm_num [retireCond, fadedSys, fadedP, mkSystem, Particle2D.init]
  exact ⟨⟨hmem, hret⟩, retired_particle_drawn_once fadedSys 0 fadedP hmem hret⟩

/-- `spawnLoop` only ever appends: the accumulator is a prefix of the result. -/
lemma spawnLoop_prefix (sys : ParticleSystem) (rnd : ℕ → ℝ × ℝ × ℝ × ℝ) :
    ∀ (N : ℕ) (n : ℤ), n.toNat ≤ N → ∀ (k : ℕ) (acc : List Particle2D),
      spawnLoop sys rnd n k acc = acc ++ spawnLoop sys rnd n k [] := by
  intro N
  induction N with
  | zero =>
    intro n hn k acc
    have hneg : ¬ n > 0 := by omega
    rw [spawnLoop, dif_neg hneg]
    rw [spawnLoop, dif_neg hneg, List.append_nil]
  | succ N ih =>
    intro n hn k acc
    by_cases hpos : n > 0
    · conv_lhs => rw [spawnLoop]
      rw [dif_pos hpos]
      conv_rhs => rw [spawnLoop]
      rw [dif_pos hpos, List.nil_append]
      rw [ih (n - 1) (by omega) (k + 1) (acc ++ [spawnParticle sys (rnd k)]),
        ih (n - 1) (by omega) (k + 1) [spawnParticle sys (rnd k)]]
      rw [List.append_assoc]
    · rw [spawnLoop, dif_neg hpos]
      rw [spawnLoop, dif_neg hpos, List.append_nil]

/-- `spawnLoop` starting from an empty accumulator builds `n.toNat` particles. -/
lemma spawnLoop_length (sys : ParticleSystem) (rnd : ℕ → ℝ × ℝ × ℝ × ℝ) :
    ∀ (N : ℕ) (n : ℤ), n.toNat ≤ N → ∀ k : ℕ,
      (spawnLoop sys rnd n k []).length = n.toNat := by
  intro N
  induction N with
  | zero =>
    intro n hn k
    have hneg : ¬ n > 0 := by omega
    rw [spawnLoop, dif_neg hneg]
    simp
    omega
  | succ N ih =>
    intro n hn k
    by_cases hpos : n > 0
    · rw [spawnLoop, dif_pos hpos, List.nil_append,
        spawnLoop_prefix sys rnd N (n - 1) (by omega) (k + 1) [spawnParticle sys (rnd k)],
        List.length_append, ih (n - 1) (by omega) (k + 1)]
      simp
      omega
    · rw [spawnLoop, dif_neg hpos]
      simp
      omega

/-- Every particle built by `spawnLoop` starts at the system's spawn origin. -/
lemma spawnLoop_origin (sys : ParticleSystem) (rnd : ℕ → ℝ × ℝ × ℝ × ℝ) :
    ∀ (N : ℕ) (n : ℤ), n.toNat ≤ N → ∀ (k : ℕ) (q : Particle2D),
      q ∈ spawnLoop sys rnd n k [] → q.x = sys.x ∧ q.y = sys.y := by
  intro N
  induction N with
  | zero =>
    intro n hn k q hq
    have hneg : ¬ n > 0 := by omega
    rw [spawnLoop, dif_neg hneg] at hq
    exact absurd hq (List.not_mem_nil q)
  | succ N ih =>
    intro n hn k q hq
    by_cases hpos : n > 0
    · rw [spawnLoop, dif_pos hpos, List.nil_append,
        spawnLoop_prefix sys rnd N (n - 1) (by omega) (k + 1)
          [spawnParticle sys (rnd k)]] at hq
      rcases List.mem_append.mp hq with h1 | h2
      · rcases List.mem_singleton.mp h1 with rfl
        exact ⟨rfl, rfl⟩
      · exact ih (n - 1) (by omega) (k + 1) q h2
    · rw [spawnLoop, dif_neg hpos] at hq
      exact absurd hq (List.not_mem_nil q)

/-- C3: `spawn n` appends exactly `n` particles for `n ≥ 0` (`spawn 0` changes
nothing), every newly spawned particle starts at the configured spawn origin,
and a negative `n` is a no-op. -/
theorem spawn_count_and_origin (sys : ParticleSystem) (n : ℤ)
    (rnd : ℕ → ℝ × ℝ × ℝ × ℝ) :
    (sys.spawn n rnd).particles.length = sys.particles.length + n.toNat ∧
    (∀ q ∈ (sys.spawn n rnd).particles.drop sys.particles.length,
      q.x = sys.x ∧ q.y = sys.y) ∧
    (n < 0 → sys.spawn n rnd = sys) := by
  have hsplit : (sys.spawn n rnd).particles
      = sys.particles ++ spawnLoop sys rnd n 0 [] :=
    spawnLoop_prefix sys rnd n.toNat n le_rfl 0 sys.particles
  refine ⟨?_, ?_, ?_⟩
  · rw [hsplit, List.length_append, spawnLoop_length sys rnd n.toNat n le_rfl 0]
  · intro q hq
    rw [hsplit, List.drop_left] at hq
    exact spawnLoop_origin sys rnd n.toNat n le_rfl 0 q hq
  · intro hneg
    show { sys with particles := spawnLoop sys rnd n 0 sys.particles } = sys
    rw [spawnLoop, dif_neg (by omega : ¬ n > 0)]

/-- Witness for C3: spawning 2 yields 2 particles; spawning -1 is a no-op. -/
theorem spawn_count_and_origin_witness :
    (ParticleSystem.spawn (mkSystem 200 200) 2 rndStream).particles.length = 2 ∧
    ((-1 : ℤ) < 0 ∧
      ParticleSystem.spawn (mkSystem 200 200) (-1) rndStream = mkSystem 200 200) := by
  constructor
  · have h := (spawn_count_and_origin (mkSystem 200 200) 2 rndStream).1
    simpa [mkSystem] using h
  · exact ⟨by norm_num,
      (spawn_count_and_origin (mkSystem 200 200) (-1) rndStream).2.2 (by norm_num)⟩

/-- `ToInt32` is just the floor on nonnegative reals below `2^31`. -/
lemma jsToInt32_of_range (r : ℝ) (h0 : 0 ≤ r) (h31 : r < 2 ^ 31) :
    jsToInt32 r = ⌊r⌋ := by
  unfold jsToInt32 jsTrunc
  rw [if_pos h0]
  have hf0 : 0 ≤ ⌊r⌋ := Int.floor_nonneg.mpr h0
  have hf31 : ⌊r⌋ < 2 ^ 31 := by
    have hc : (⌊r⌋ : ℝ) < 2 ^ 31 := lt_of_le_of_lt (Int.floor_le r) h31
    exact_mod_cast hc
  norm_num
  omega

lemma jsToInt32_31 : jsToInt32 (31 : ℝ) = 31 := by
  rw [jsToInt32_of_range 31 (by norm_num) (by norm_num)]
  rw [show ((31 : ℝ)) = ((31 : ℤ) : ℝ) by norm_num, Int.floor_intCast]

/-- C7 counterexample: for the mass-31 particle the gradient's outer radius is
`31 >> 1 = 15`, not half the rendered size `31 / 2 = 15.5`: the claim's radius
formula fails on odd masses. -/
theorem draw_gradient_counterexample :
    ¬ ((Particle2D.draw oddMassP).outerRadius = oddMassP.mass / 2) := by
  have hmass : oddMassP.mass = 31 := rfl
  have hout : (Particle2D.draw oddMassP).outerRadius
      = ((Int.fdiv (jsToInt32 oddMassP.mass) 2 : ℤ) : ℝ) := rfl
  have e : Int.fdiv (31 : ℤ) 2 = 15 := by decide
  rw [hout, hmass, jsToInt32_31, e]
  norm_num

/-- C7 amended: the gradient's inner radius is the outer radius times
sharpness (so sharpness 0 gives 0 and sharpness 1 makes them equal), the
gradient center is the fill rectangle's corner shifted by the outer radius on
each axis, and the outer radius is the integer half `⌊mass⌋ / 2` of the
truncated mass — which is half the rendered size only for even integer
masses. -/
theorem draw_gradient_radii (p : Particle2D) (h0 : 0 ≤ p.mass) (h31 : p.mass < 2 ^ 31) :
    (Particle2D.draw p).innerRadius = (Particle2D.draw p).outerRadius * p.sharpness ∧
    (p.sharpness = 0 → (Particle2D.draw p).innerRadius = 0) ∧
    (p.sharpness = 1 → (Particle2D.draw p).innerRadius = (Particle2D.draw p).outerRadius) ∧
    ((Particle2D.draw p).gradX0 : ℝ)
      = ((Particle2D.draw p).rectX : ℝ) + (Particle2D.draw p).outerRadius ∧
    ((Particle2D.draw p).gradY0 : ℝ)
      = ((Particle2D.draw p).rectY : ℝ) + (Particle2D.draw p).outerRadius ∧
    (Particle2D.draw p).outerRadius = ((⌊p.mass⌋ / 2 : ℤ) : ℝ) := by
  have h1 : (Particle2D.draw p).innerRadius
      = (Particle2D.draw p).outerRadius * p.sharpness := rfl
  refine ⟨h1, ?_, ?_, ?_, ?_, ?_⟩
  · intro hs
    rw [h1, hs, mul_zero]
  · intro hs
    rw [h1, hs, mul_one]
  · show ((jsToInt32 p.x + Int.fdiv (jsToInt32 p.mass) 2 : ℤ) : ℝ)
      = ((jsToInt32 p.x : ℤ) : ℝ) + ((Int.fdiv (jsToInt32 p.mass) 2 : ℤ) : ℝ)
    push_cast
    ring
  · show ((jsToInt32 p.y + Int.fdiv (jsToInt32 p.mass) 2 : ℤ) : ℝ)
      = ((jsToInt32 p.y : ℤ) : ℝ) + ((Int.fdiv (jsToInt32 p.mass) 2 : ℤ) : ℝ)
    push_cast
    ring
  · show ((Int.fdiv (jsToInt32 p.mass) 2 : ℤ) : ℝ) = ((⌊p.mass⌋ / 2 : ℤ) : ℝ)
    rw [jsToInt32_of_range p.mass h0 h31, Int.fdiv_eq_ediv _ (by norm_num)]

/-- Witness for the amended C7 at the mass-31 particle. -/
theorem draw_gradient_radii_witness :
    (0 ≤ oddMassP.mass ∧ oddMassP.mass < 2 ^ 31) ∧
    ((Particle2D.draw oddMassP).innerRadius
        = (Particle2D.draw oddMassP).outerRadius * oddMassP.sharpness ∧
      (oddMassP.sharpness = 0 → (Particle2D.draw oddMassP).innerRadius = 0) ∧
      (oddMassP.sharpness = 1 → (Particle2D.draw oddMassP).innerRadius
        = (Particle2D.draw oddMassP).outerRadius) ∧
      ((Particle2D.draw oddMassP).gradX0 : ℝ)
        = ((Particle2D.draw oddMassP).rectX : ℝ) + (Particle2D.draw oddMassP).outerRadius ∧
      ((Particle2D.draw oddMassP).gradY0 : ℝ)
        = ((Particle2D.draw oddMassP).rectY : ℝ) + (Particle2D.draw oddMassP).outerRadius ∧
      (Particle2D.draw oddMassP).outerRadius = ((⌊oddMassP.mass⌋ / 2 : ℤ) : ℝ)) := by
  have h0 : (0 : ℝ) ≤ oddMassP.mass := by norm_num [oddMassP, Particle2D.init]
  have h31 : oddMassP.mass < 2 ^ 31 := by norm_num [oddMassP, Particle2D.init]
  exact ⟨⟨h0, h31⟩, draw_gradient_radii oddMassP h0 h31⟩
